import Mathlib

/-!
# Verification of the Usage Aggregation Engine

A shallow embedding, in Lean 4, of the usage-aggregation core of the
Coding-Assistant repository: the log-line parsers (`store/logParser.js`),
the aggregator (`store/usageAggregator.js`) and the refresh/staleness
policy of the usage page (`pages/UsageMonitorPage.jsx`), together with
theorems checking the behavioural claims made about them.

Modelling conventions:
* Instants are integer milliseconds since the Unix epoch.
* A JSONL line is modelled by the outcome of JSON.parse: `none` when
  parsing throws (malformed JSON, non-JSON text), `some v` otherwise.
* JSON numbers are modelled as exact rationals; double rounding is out
  of scope.  JSON.parse cannot produce NaN, and the overflow-to-infinity
  corner of huge literals is elided.
* JavaScript Date values are `DateV`: either a valid instant or the
  Invalid Date produced by an unparseable argument.  Asia/Shanghai civil
  time is a constant UTC+8 offset (true since 1991, which covers every
  instant this program can see).  Date strings without an explicit UTC
  offset would be interpreted in the ambient host timezone and are
  modelled as invalid; the logs this engine reads carry explicit offsets.
* String.prototype.toLowerCase is modelled on ASCII letters, the only
  letters the model-name rule table and the session-id pattern inspect.
-/

namespace UsageEngine

/-- A parsed JSON value (the result of a successful JSON.parse).
Duplicate keys are collapsed by JSON.parse (last occurrence wins), so
object field lists are modelled as already deduplicated. -/
inductive Json where
  | null
  | bool (b : Bool)
  | num (q : ℚ)
  | str (s : String)
  | arr (elems : List Json)
  | obj (fields : List (String × Json))

/-- Property access `v[k]` on a JSON value: objects look the key up,
every other value has no own properties (`undefined`, modelled `none`). -/
def jget (v : Json) (k : String) : Option Json :=
  match v with
  | .obj fields => (fields.find? (fun kv => kv.1 = k)).map (fun kv => kv.2)
  | _ => none

/-- JavaScript truthiness of a JSON-derived value (`none` = undefined). -/
def jsTruthy (v : Option Json) : Bool :=
  match v with
  | none => false
  | some .null => false
  | some (.bool b) => b
  | some (.num q) => decide (q ≠ 0)
  | some (.str s) => decide (s ≠ "")
  | some (.arr _) => true
  | some (.obj _) => true

/-- ASCII lower-casing of one character, the fragment of
String.prototype.toLowerCase this engine relies on. -/
def charToLower (c : Char) : Char :=
  if 65 ≤ c.toNat ∧ c.toNat ≤ 90 then Char.ofNat (c.toNat + 32) else c

/-- Model of String.prototype.toLowerCase (ASCII fragment). -/
def strToLower (s : String) : String :=
  ⟨s.data.map charToLower⟩

/-- Does `hay` start with `needle`? -/
def startsWithList : List Char → List Char → Bool
  | _, [] => true
  | [], _ :: _ => false
  | h :: hs, n :: ns => h = n && startsWithList hs ns

/-- Does `needle` occur contiguously inside `hay`?  Model of
String.prototype.includes. -/
def listIncludes (needle : List Char) : List Char → Bool
  | [] => startsWithList [] needle
  | h :: t => startsWithList (h :: t) needle || listIncludes needle t

/-- Model of `s.includes(sub)`. -/
def strIncludes (s sub : String) : Bool :=
  listIncludes sub.data s.data

/-- `cs.split(sep)` on character lists; never returns an empty list. -/
def splitOnChar (sep : Char) : List Char → List (List Char)
  | [] => [[]]
  | c :: rest =>
    let r := splitOnChar sep rest
    if c = sep then [] :: r
    else
      match r with
      | [] => [[c]]
      | g :: gs => (c :: g) :: gs

/-- `groups.join(sep)` on character lists. -/
def joinWithChar (sep : Char) : List (List Char) → List Char
  | [] => []
  | [g] => g
  | g :: gs => g ++ sep :: joinWithChar sep gs

/-- The ordered substring-rule table of `normalizeModelName`: the first
rule whose key list has a member occurring in the lower-cased model name
wins and yields the associated series name. -/
def normalizeRules : List (List String × String) :=
  [ (["claude-opus", "opus"], "opus")
  , (["claude-sonnet", "sonnet"], "sonnet")
  , (["claude-haiku", "haiku"], "haiku")
  , (["claude"], "claude")
  , (["gpt-5", "gpt5"], "gpt-5")
  , (["gpt-4o"], "gpt-4o")
  , (["gpt-4"], "gpt-4")
  , (["gpt-3.5", "gpt3"], "gpt-3.5")
  , (["kimi"], "kimi")
  , (["deepseek"], "deepseek")
  , (["gemini"], "gemini")
  , (["qwen"], "qwen")
  , (["yi"], "yi")
  , (["llama"], "llama")
  , (["mistral"], "mistral") ]

/-- Does a rule fire on the (already lower-cased) model name? -/
def ruleMatches (lowerModel : String) (r : List String × String) : Bool :=
  r.1.any (fun k => strIncludes lowerModel k)

/-- The fallback of `normalizeModelName`: strip anything after the first
colon, keep at most the first two dash-delimited segments.
JS: `lowerModel.split(':')[0].split('-').slice(0, 2).join('-')`. -/
def fallbackName (lowerModel : String) : String :=
  let s0 := lowerModel.data.takeWhile (fun c => c ≠ ':')
  ⟨joinWithChar '-' ((splitOnChar '-' s0).take 2)⟩

/-- Rule dispatch of `normalizeModelName` on the lower-cased name. -/
def applyRules (lowerModel : String) : String :=
  match normalizeRules.find? (fun r => ruleMatches lowerModel r) with
  | some r => r.2
  | none => fallbackName lowerModel

/-- `normalizeModelName` from `store/logParser.js`, restricted to string
arguments (non-strings go through `normalizeModelNameJS` below).  The
empty string is falsy in JS, hence the first guard. -/
def normalizeModelName (model : String) : String :=
  if model = "" then "unknown"
  else applyRules (strToLower model)

/-- `normalizeModelName` applied to an arbitrary JSON-derived value:
missing or non-string input yields "unknown". -/
def normalizeModelNameJS (model : Option Json) : String :=
  match model with
  | some (.str s) => normalizeModelName s
  | _ => "unknown"

/-! ## Number coercion (`Number(value)` and `toSafeInt`) -/

/-- Whitespace trimmed by `Number(string)`. -/
def isJsSpace (c : Char) : Bool :=
  c = ' ' ∨ c = '\t' ∨ c = '\n' ∨ c = '\r' ∨ c = '\x0b' ∨ c = '\x0c'

/-- Decimal digit run to a natural number; `none` on a non-digit or an
empty run. -/
def digitsToNat : List Char → Option ℕ
  | [] => none
  | cs =>
    cs.foldl
      (fun acc c =>
        match acc with
        | none => none
        | some n => if c.isDigit then some (n * 10 + (c.toNat - 48)) else none)
      (some 0)

/-- Value of one digit in base `b`, when valid. -/
def digitValue (b : ℕ) (c : Char) : Option ℕ :=
  let v :=
    if c.isDigit then some (c.toNat - 48)
    else if 97 ≤ c.toNat ∧ c.toNat ≤ 102 then some (c.toNat - 87)
    else if 65 ≤ c.toNat ∧ c.toNat ≤ 70 then some (c.toNat - 55)
    else none
  match v with
  | some n => if n < b then some n else none
  | none => none

/-- Digit run in base `b`; `none` on a bad digit or an empty run. -/
def parseRadix (b : ℕ) : List Char → Option ℕ
  | [] => none
  | cs =>
    cs.foldl
      (fun acc c =>
        match acc, digitValue b c with
        | some n, some d => some (n * b + d)
        | _, _ => none)
      (some 0)

/-- Split at the first character satisfying `p`; the second component is
`none` when no such character occurs. -/
def splitAtFirst (p : Char → Bool) : List Char → List Char × Option (List Char)
  | [] => ([], none)
  | c :: r =>
    if p c then ([], some r)
    else
      let (a, b) := splitAtFirst p r
      (c :: a, b)

/-- `intPart [. fracPart]` of a decimal literal to an exact rational. -/
def parseDecimalBase (cs : List Char) : Option ℚ :=
  let (ip, fp) := splitAtFirst (fun c => c = '.') cs
  match fp with
  | none => (digitsToNat ip).map (fun n => (n : ℚ))
  | some [] => (digitsToNat ip).map (fun n => (n : ℚ))
  | some f =>
    match ip, digitsToNat f with
    | [], some fn => some ((fn : ℚ) / (10 : ℚ) ^ f.length)
    | _ :: _, some fn =>
      (digitsToNat ip).map (fun n => (n : ℚ) + (fn : ℚ) / (10 : ℚ) ^ f.length)
    | _, none => none

/-- Model of `Number(string)`: `some q` for a finite numeric value,
`none` for NaN or an infinity. -/
def jsStringToNumber (s : String) : Option ℚ :=
  let cs := ((s.data.dropWhile isJsSpace).reverse.dropWhile isJsSpace).reverse
  match cs with
  | [] => some 0
  | '0' :: 'x' :: hs => (parseRadix 16 hs).map (fun n => (n : ℚ))
  | '0' :: 'X' :: hs => (parseRadix 16 hs).map (fun n => (n : ℚ))
  | '0' :: 'o' :: hs => (parseRadix 8 hs).map (fun n => (n : ℚ))
  | '0' :: 'O' :: hs => (parseRadix 8 hs).map (fun n => (n : ℚ))
  | '0' :: 'b' :: hs => (parseRadix 2 hs).map (fun n => (n : ℚ))
  | '0' :: 'B' :: hs => (parseRadix 2 hs).map (fun n => (n : ℚ))
  | _ =>
    let (sign, rest) :=
      match cs with
      | '+' :: r => ((1 : ℚ), r)
      | '-' :: r => ((-1 : ℚ), r)
      | r => ((1 : ℚ), r)
    if rest = "Infinity".data then none
    else
      let (base, ex) := splitAtFirst (fun c => c = 'e' ∨ c = 'E') rest
      match ex with
      | none => (parseDecimalBase base).map (fun q => sign * q)
      | some e =>
        let (esign, edigits) :=
          match e with
          | '+' :: r => (true, r)
          | '-' :: r => (false, r)
          | r => (true, r)
        match parseDecimalBase base, digitsToNat edigits with
        | some b, some n =>
          some (sign * (if esign then b * (10 : ℚ) ^ n else b / (10 : ℚ) ^ n))
        | _, _ => none

/-- Model of `Number(value)` on a JSON-derived value; `none` is any
non-finite result.  Multi-element arrays coerce to NaN; the one-element
array corner (which coerces through its element) is elided. -/
def jsNumber : Option Json → Option ℚ
  | none => none
  | some .null => some 0
  | some (.bool b) => some (if b then 1 else 0)
  | some (.num q) => some q
  | some (.str s) => jsStringToNumber s
  | some (.arr []) => some 0
  | some (.arr (_ :: _)) => none
  | some (.obj _) => none

/-- `toSafeInt` from `store/logParser.js`:
`Number(value)` then `Number.isFinite` guard then
`Math.max(0, Math.floor(parsed))`. -/
def toSafeInt (v : Option Json) : ℤ :=
  match jsNumber v with
  | none => 0
  | some q => max 0 ⌊q⌋

/-! ## Dates -/

/-- A JavaScript Date: a valid instant in epoch milliseconds, or the
Invalid Date. -/
inductive DateV where
  | invalid
  | valid (ms : ℤ)
deriving DecidableEq

/-- Days from the epoch of a proleptic-Gregorian civil date
(Howard Hinnant's `days_from_civil`). -/
def daysFromCivil (y m d : ℤ) : ℤ :=
  let y2 := if m ≤ 2 then y - 1 else y
  let m2 := if m ≤ 2 then m + 9 else m - 3
  let era := y2.fdiv 400
  let yoe := y2 - era * 400
  let doy := (153 * m2 + 2).fdiv 5 + d - 1
  let doe := yoe * 365 + yoe.fdiv 4 - yoe.fdiv 100 + doy
  era * 146097 + doe - 719468

/-- Civil date (year, month, day) of a day count from the epoch
(Howard Hinnant's `civil_from_days`). -/
def civilFromDays (z0 : ℤ) : ℤ × ℤ × ℤ :=
  let z := z0 + 719468
  let era := z.fdiv 146097
  let doe := z - era * 146097
  let yoe := (doe - doe.fdiv 1460 + doe.fdiv 36524 - doe.fdiv 146096).fdiv 365
  let y := yoe + era * 400
  let doy := doe - (365 * yoe + yoe.fdiv 4 - yoe.fdiv 100)
  let mp := (5 * doy + 2).fdiv 153
  let d := doy - (153 * mp + 2).fdiv 5 + 1
  let m := if mp < 10 then mp + 3 else mp - 9
  (if m ≤ 2 then y + 1 else y, m, d)

/-- Gregorian leap year. -/
def isLeapYear (y : ℤ) : Bool :=
  (y.emod 4 = 0 ∧ y.emod 100 ≠ 0) ∨ y.emod 400 = 0

/-- Days in a civil month. -/
def daysInMonth (y m : ℤ) : ℤ :=
  if m = 2 then (if isLeapYear y then 29 else 28)
  else if m = 4 ∨ m = 6 ∨ m = 9 ∨ m = 11 then 30
  else 31

/-- Fixed-width digit run to a natural number. -/
def fixedDigits (width : ℕ) (cs : List Char) : Option ℕ :=
  if cs.length = width then digitsToNat cs else none

/-- Parse `YYYY-MM-DD`, validating the calendar. -/
def parseCivilDate (cs : List Char) : Option (ℤ × ℤ × ℤ) :=
  match splitOnChar '-' cs with
  | [ys, ms, ds] =>
    match fixedDigits 4 ys, fixedDigits 2 ms, fixedDigits 2 ds with
    | some y, some m, some d =>
      if 1 ≤ m ∧ m ≤ 12 ∧ 1 ≤ d ∧ (d : ℤ) ≤ daysInMonth y m then
        some ((y : ℤ), (m : ℤ), (d : ℤ))
      else none
    | _, _, _ => none
  | _ => none

/-- Parse a millisecond fraction of one to three digits. -/
def parseFraction (cs : List Char) : Option ℤ :=
  match cs, digitsToNat cs with
  | [_], some n => some ((n : ℤ) * 100)
  | [_, _], some n => some ((n : ℤ) * 10)
  | [_, _, _], some n => some ((n : ℤ))
  | _, _ => none

/-- Parse `HH:MM`, `HH:MM:SS` or `HH:MM:SS.fff` to milliseconds since
midnight. -/
def parseTimeOfDay (cs : List Char) : Option ℤ :=
  let pieces := splitOnChar ':' cs
  let core :=
    match pieces with
    | [hs, ms] => some (hs, ms, none)
    | [hs, ms, ss] => some (hs, ms, some ss)
    | _ => none
  match core with
  | none => none
  | some (hs, ms, ssOpt) =>
    match fixedDigits 2 hs, fixedDigits 2 ms with
    | some h, some m =>
      if h ≤ 23 ∧ m ≤ 59 then
        match ssOpt with
        | none => some ((h : ℤ) * 3600000 + (m : ℤ) * 60000)
        | some ss =>
          let (sp, fr) := splitAtFirst (fun c => c = '.') ss
          match fixedDigits 2 sp with
          | some s =>
            if s ≤ 59 then
              match fr with
              | none => some ((h : ℤ) * 3600000 + (m : ℤ) * 60000 + (s : ℤ) * 1000)
              | some f =>
                (parseFraction f).map
                  (fun msv => (h : ℤ) * 3600000 + (m : ℤ) * 60000 + (s : ℤ) * 1000 + msv)
            else none
          | none => none
      else none
    | _, _ => none

/-- Parse a UTC offset body (`HH:MM`, `HHMM` or `HH`) to milliseconds. -/
def parseOffsetBody (cs : List Char) : Option ℤ :=
  match splitOnChar ':' cs with
  | [hs, ms] =>
    match fixedDigits 2 hs, fixedDigits 2 ms with
    | some h, some m => if h ≤ 23 ∧ m ≤ 59 then some ((h : ℤ) * 3600000 + (m : ℤ) * 60000) else none
    | _, _ => none
  | [body] =>
    match body.length, digitsToNat body with
    | 2, some h => if h ≤ 23 then some ((h : ℤ) * 3600000) else none
    | 4, some hm =>
      let h := hm / 100
      let m := hm % 100
      if h ≤ 23 ∧ m ≤ 59 then some ((h : ℤ) * 3600000 + (m : ℤ) * 60000) else none
    | _, _ => none
  | _ => none

/-- Parse the time-with-offset half of an ISO date-time.  A trailing `Z`
is offset zero; an explicit `+HH:MM` or `-HH:MM` is applied; a missing
offset would be host-timezone dependent and is modelled as invalid. -/
def parseTimeWithOffset (cs : List Char) : Option ℤ :=
  match cs.reverse with
  | 'Z' :: restRev => (parseTimeOfDay restRev.reverse).map (fun t => t)
  | _ =>
    let (timePart, offPart) := splitAtFirst (fun c => c = '+' ∨ c = '-') cs
    match offPart with
    | none => none
    | some off =>
      let negative := ((cs.drop timePart.length).headD ' ') = '-'
      match parseTimeOfDay timePart, parseOffsetBody off with
      | some t, some o => some (t - (if negative then -o else o))
      | _, _ => none

/-- Model of `new Date(string)` for ISO-8601 strings as found in the
logs (date-only is UTC midnight; date-time requires `Z` or `±HH:MM`). -/
def parseISODate (s : String) : DateV :=
  match splitOnChar 'T' s.data with
  | [d] =>
    match parseCivilDate d with
    | some (y, m, dd) => .valid (daysFromCivil y m dd * 86400000)
    | none => .invalid
  | [d, t] =>
    match parseCivilDate d, parseTimeWithOffset t with
    | some (y, m, dd), some tms => .valid (daysFromCivil y m dd * 86400000 + tms)
    | _, _ => .invalid
  | _ => .invalid

/-- Truncation toward zero, as TimeClip applies to a numeric Date
argument. -/
def jsTrunc (q : ℚ) : ℤ :=
  if 0 ≤ q then ⌊q⌋ else ⌈q⌉

/-- Model of `new Date(value)` on a truthy JSON-derived value.  Numbers
are epoch milliseconds (clipped to the representable range), strings go
through the ISO parser, anything else is modelled as invalid. -/
def jsDate (v : Json) : DateV :=
  match v with
  | .num q =>
    if q < -8640000000000000 ∨ 8640000000000000 < q then .invalid
    else .valid (jsTrunc q)
  | .str s => parseISODate s
  | _ => .invalid

/-- `d < bound` between a Date and a valid Date: false when `d` is the
Invalid Date (NaN comparisons are false). -/
def dateLTz (d : DateV) (bound : ℤ) : Bool :=
  match d with
  | .invalid => false
  | .valid t => t < bound

/-- `d >= bound` between a Date and a valid Date: false when `d` is
invalid. -/
def dateGEz (d : DateV) (bound : ℤ) : Bool :=
  match d with
  | .invalid => false
  | .valid t => bound ≤ t

/-- Numeric coercion of a Date-or-null field for relational comparison:
`null` coerces to 0, the Invalid Date to NaN (`none`). -/
def jsTsNum (d : Option DateV) : Option ℤ :=
  match d with
  | none => some 0
  | some .invalid => none
  | some (.valid t) => some t

/-- `a > b` between Date-or-null fields: false whenever NaN is
involved. -/
def dateGTv (a b : Option DateV) : Bool :=
  match jsTsNum a, jsTsNum b with
  | some x, some y => y < x
  | _, _ => false

/-- Split a path on `/` and `\`, the separator class of
`filePath.split(/[\\/]/)`. -/
def splitOnChar2 (cs : List Char) : List (List Char) :=
  (splitOnChar '/' cs).flatMap (fun g => splitOnChar '\\' g)

/-! ## Log-line parsers (`store/logParser.js`)

A line of text is modelled by its JSON.parse outcome: `none` when the
parse throws.  Property access on `null` throws a TypeError; both throw
sites are inside the try block whose catch returns `null`, so the
embedding returns `none` for them directly. -/

/-- One discrete usage event (`{timestamp, model, input, output,
cacheRead, cacheCreate}`).  Token fields come from `field || 0`; the
logs carry JSON numbers there, so they are modelled numerically. -/
structure UsageRecord where
  timestamp : Option DateV
  model : String
  input : ℚ
  output : ℚ
  cacheRead : ℚ
  cacheCreate : ℚ
deriving DecidableEq

/-- A cumulative usage reading for one Codex session at one instant. -/
structure CodexSnapshot where
  timestamp : Option DateV
  model : String
  inputTotal : ℤ
  outputTotal : ℤ
  cacheReadTotal : ℤ
  totalTokens : ℤ
deriving DecidableEq

/-- `field || 0` on a usage sub-object: a truthy numeric field keeps its
value, everything else collapses to `0`. -/
def jsOrZero (v : Option Json) : ℚ :=
  match v with
  | some (.num q) => q
  | _ => 0

/-- `a || b || 0` for the cache-field aliases (first truthy wins). -/
def jsOrZero2 (v w : Option Json) : ℚ :=
  if jsTruthy v then jsOrZero v else jsOrZero w

/-- `value ? new Date(value) : null` for the timestamp fields. -/
def jsTimestamp (v : Option Json) : Option DateV :=
  if jsTruthy v then some (jsDate (v.getD .null)) else none

/-- `parseClaudeLog` from `store/logParser.js`: requires `message.usage`,
reads both historical cache-field spellings, and normalizes the model
name.  Any throw inside the try block is converted to `none`. -/
def parseClaudeLog (line : Option Json) : Option UsageRecord :=
  match line with
  | none => none
  | some .null => none
  | some data =>
    match jget data "message" with
    | none => none
    | some .null => none
    | some msg =>
      let usageV := jget msg "usage"
      if jsTruthy usageV = false then none
      else
        let usage := usageV.getD .null
        let tsRaw := jget data "timestamp"
        let tsV := if jsTruthy tsRaw then tsRaw else jget msg "timestamp"
        let modelV := jget msg "model"
        some
          { timestamp := jsTimestamp tsV
          , model :=
              normalizeModelNameJS (if jsTruthy modelV then modelV else some (.str "unknown"))
          , input := jsOrZero (jget usage "input_tokens")
          , output := jsOrZero (jget usage "output_tokens")
          , cacheRead := jsOrZero2 (jget usage "cache_read_input_tokens") (jget usage "cache_read_tokens")
          , cacheCreate := jsOrZero2 (jget usage "cache_creation_input_tokens") (jget usage "cache_creation_tokens") }

/-- JS strict equality of a JSON-derived value against a string
literal: true exactly for that string. -/
def isStrEq (v : Option Json) (s : String) : Bool :=
  match v with
  | some (.str t) => t = s
  | _ => false

/-- Does the line carry the Codex token-count envelope
(`type = "event_msg"` and `payload.type = "token_count"`)? -/
def codexEnvelopeOk (data : Json) : Bool :=
  isStrEq (jget data "type") "event_msg" &&
    (match jget data "payload" with
     | none => false
     | some .null => false
     | some p => isStrEq (jget p "type") "token_count")

/-- `parseCodexLog` from `store/logParser.js` (per-event flavor): reads
`last_token_usage` falling back to `total_token_usage`; the model is the
fixed literal "codex". -/
def parseCodexLog (line : Option Json) : Option UsageRecord :=
  match line with
  | none => none
  | some .null => none
  | some data =>
    if codexEnvelopeOk data = false then none
    else
      let payload := (jget data "payload").getD .null
      let infoV := jget payload "info"
      if jsTruthy infoV = false then none
      else
        let info := infoV.getD .null
        let usageV :=
          if jsTruthy (jget info "last_token_usage") then jget info "last_token_usage"
          else jget info "total_token_usage"
        if jsTruthy usageV = false then none
        else
          let usage := usageV.getD .null
          some
            { timestamp := jsTimestamp (jget data "timestamp")
            , model := "codex"
            , input := jsOrZero (jget usage "input_tokens")
            , output := jsOrZero (jget usage "output_tokens")
            , cacheRead := jsOrZero (jget usage "cached_input_tokens")
            , cacheCreate := 0 }

/-- `parseCodexTokenSnapshot` from `store/logParser.js` (cumulative
flavor): reads `total_token_usage` through `toSafeInt`, deriving
`totalTokens` from the field sum when the field is falsy. -/
def parseCodexTokenSnapshot (line : Option Json) : Option CodexSnapshot :=
  match line with
  | none => none
  | some .null => none
  | some data =>
    if codexEnvelopeOk data = false then none
    else
      let payload := (jget data "payload").getD .null
      match jget payload "info" with
      | none => none
      | some .null => none
      | some info =>
        let ttuV := jget info "total_token_usage"
        if jsTruthy ttuV = false then none
        else
          let totalUsage := ttuV.getD .null
          let inputTotal := toSafeInt (jget totalUsage "input_tokens")
          let outputTotal := toSafeInt (jget totalUsage "output_tokens")
          let cacheReadTotal := toSafeInt (jget totalUsage "cached_input_tokens")
          let totalRaw := toSafeInt (jget totalUsage "total_tokens")
          some
            { timestamp := jsTimestamp (jget data "timestamp")
            , model := "codex"
            , inputTotal := inputTotal
            , outputTotal := outputTotal
            , cacheReadTotal := cacheReadTotal
            , totalTokens :=
                if totalRaw = 0 then inputTotal + outputTotal + cacheReadTotal else totalRaw }

/-- `calculateTotalTokens` from `store/logParser.js`. -/
def calculateTotalTokens (record : UsageRecord) : ℚ :=
  record.input + record.output + record.cacheRead + record.cacheCreate

/-! ## Time windows (`getBeijingTimeWindow`) -/

/-- Milliseconds per civil day. -/
def msPerDay : ℤ := 86400000

/-- The fixed UTC+8 offset of Asia/Shanghai in milliseconds. -/
def beijingOffsetMs : ℤ := 28800000

/-- Index of the Beijing civil day containing instant `t`. -/
def beijingDayIndex (t : ℤ) : ℤ :=
  (t + beijingOffsetMs).fdiv msPerDay

/-- Instant of Beijing civil midnight of the day containing `t`
(the `new Date(yyyy-mm-ddT00:00:00+08:00)` of the source). -/
def beijingDayStartMs (t : ℤ) : ℤ :=
  beijingDayIndex t * msPerDay - beijingOffsetMs

/-- A half-open report window `[start, endTime)`. -/
structure TimeWindow where
  start : ℤ
  endTime : ℤ
deriving DecidableEq

/-- `getBeijingTimeWindow` from `store/usageAggregator.js`: today is
`[Beijing midnight, now)`; week and month end at today's midnight and
start 7 resp. 30 civil days earlier (`setUTCDate` subtracts exact UTC
days, which are exact multiples of 86400000 ms); any other period value
falls through the switch to the today shape. -/
def getBeijingTimeWindow (period : String) (now : ℤ) : TimeWindow :=
  let todayStart := beijingDayStartMs now
  if period = "week" then { start := todayStart - 7 * msPerDay, endTime := todayStart }
  else if period = "month" then { start := todayStart - 30 * msPerDay, endTime := todayStart }
  else { start := todayStart, endTime := now }

/-! ## Scanning (`scanClaudeLogs`, `scanCodexLogs`) -/

/-- One file returned by the scanner collaborator: its path and its
lines, each line modelled by its JSON.parse outcome. -/
structure ScanFile where
  path : String
  lines : List (Option Json)

/-- The scanner collaborator response consumed by the engine.  `files`
is `none` when the field is missing (the `!result.files` guard; an empty
array is truthy in JS and is modelled `some []`). -/
structure ScanResult where
  success : Bool
  files : Option (List ScanFile)

/-- The record-level half-open window check of `scanClaudeLogs`:
`record.timestamp >= start && record.timestamp < end`.  A `null`
timestamp coerces to 0; an Invalid Date compares false both ways. -/
def inWindowJS (ts : Option DateV) (start endTime : ℤ) : Bool :=
  match ts with
  | none => decide (0 ≥ start) && decide (0 < endTime)
  | some .invalid => false
  | some (.valid t) => decide (t ≥ start) && decide (t < endTime)

/-- The record-collecting loop of `scanClaudeLogs`: on a failed or
file-less scan the accumulated (empty) record list is returned;
otherwise every line is parsed and kept when its timestamp lies in
`[start, endTime)`. -/
def scanClaudeRecords (res : ScanResult) (start endTime : ℤ) : List UsageRecord :=
  if res.success = false then []
  else
    match res.files with
    | none => []
    | some files =>
      files.flatMap (fun f =>
        f.lines.filterMap (fun line =>
          match parseClaudeLog line with
          | none => none
          | some r => if inWindowJS r.timestamp start endTime then some r else none))

/-- The per-session two-slot state of the snapshot reducer. -/
structure SessionState where
  beforeWindow : Option CodexSnapshot
  inWindow : Option CodexSnapshot
deriving DecidableEq

/-- The 36-character lowercase-or-uppercase-hex UUID shape
`8-4-4-4-12` that the session-id pattern anchors at the end of the
file stem. -/
def uuidShape (cs : List Char) : Bool :=
  cs.length = 36 &&
    (List.range 36).all (fun i =>
      let c := cs.getD i ' '
      if i = 8 ∨ i = 13 ∨ i = 18 ∨ i = 23 then c = '-'
      else c.isDigit || (97 ≤ c.toNat && c.toNat ≤ 102) || (65 ≤ c.toNat && c.toNat ≤ 70))

/-- `extractCodexSessionId` from `store/usageAggregator.js`: last path
component, `.jsonl` suffix stripped case-insensitively, then the
trailing UUID when present, the stem otherwise, lower-cased (with the
fixed fallback for an empty stem). -/
def extractCodexSessionId (filePath : String) : String :=
  let fileName := (splitOnChar2 filePath.data).getLastD []
  let stem :=
    if (strToLower ⟨fileName.drop (fileName.length - 6)⟩) = ".jsonl" ∧ 6 ≤ fileName.length
    then fileName.take (fileName.length - 6) else fileName
  let tail36 := stem.drop (stem.length - 36)
  let chosen := if uuidShape tail36 ∧ 36 ≤ stem.length then tail36 else stem
  if chosen = [] then "unknown-codex-session" else strToLower ⟨chosen⟩

/-- `pickCodexMaxSnapshot`: keep the larger cumulative total; on a tie
keep the later timestamp (`Date > Date` is false when either side is
invalid; a `null` side coerces to 0). -/
def pickCodexMaxSnapshot (current : Option CodexSnapshot) (incoming : CodexSnapshot) :
    CodexSnapshot :=
  match current with
  | none => incoming
  | some c =>
    if incoming.totalTokens > c.totalTokens then incoming
    else if incoming.totalTokens = c.totalTokens ∧ dateGTv incoming.timestamp c.timestamp
    then incoming
    else c

/-- One line of the per-file loop of `scanCodexLogs`: snapshots without
a timestamp are skipped; the rest update the before-window or in-window
slot by the max-with-tiebreak rule; instants at or past the window end
fall through. -/
def updateSessionState (start endTime : ℤ) (st : SessionState) (snap : CodexSnapshot) :
    SessionState :=
  match snap.timestamp with
  | none => st
  | some d =>
    if dateLTz d start then { st with beforeWindow := some (pickCodexMaxSnapshot st.beforeWindow snap) }
    else if dateGEz d start ∧ dateLTz d endTime
    then { st with inWindow := some (pickCodexMaxSnapshot st.inWindow snap) }
    else st

/-- The per-session delta emission of `scanCodexLogs`: cumulative
deltas clamped at zero, the cached share split out of the input total,
zero-total sessions dropped. -/
def codexSessionRecord (st : SessionState) : Option UsageRecord :=
  match st.inWindow with
  | none => none
  | some inw =>
    let bIn := match st.beforeWindow with | some b => b.inputTotal | none => 0
    let bOut := match st.beforeWindow with | some b => b.outputTotal | none => 0
    let bCache := match st.beforeWindow with | some b => b.cacheReadTotal | none => 0
    let deltaInputTotal := max 0 (inw.inputTotal - bIn)
    let deltaOutput := max 0 (inw.outputTotal - bOut)
    let deltaCacheRead := max 0 (inw.cacheReadTotal - bCache)
    let deltaNonCachedInput := max 0 (deltaInputTotal - deltaCacheRead)
    let deltaTotal := deltaNonCachedInput + deltaOutput + deltaCacheRead
    if deltaTotal ≤ 0 then none
    else
      some
        { timestamp := inw.timestamp
        , model := inw.model
        , input := (deltaNonCachedInput : ℚ)
        , output := (deltaOutput : ℚ)
        , cacheRead := (deltaCacheRead : ℚ)
        , cacheCreate := 0 }

/-- `sessionSnapshots.get(id) ?? fresh state` (insertion-ordered Map). -/
def sessionGet (m : List (String × SessionState)) (k : String) : SessionState :=
  match m.find? (fun p => p.1 = k) with
  | some p => p.2
  | none => { beforeWindow := none, inWindow := none }

/-- `sessionSnapshots.set(id, state)`: update in place when present,
append otherwise (JS Map keeps first-insertion order). -/
def sessionSet (m : List (String × SessionState)) (k : String) (v : SessionState) :
    List (String × SessionState) :=
  if m.any (fun p => p.1 = k) then m.map (fun p => if p.1 = k then (k, v) else p)
  else m ++ [(k, v)]

/-- The session-grouping and reduction loop of `scanCodexLogs`. -/
def scanCodexRecords (res : ScanResult) (start endTime : ℤ) : List UsageRecord :=
  if res.success = false then []
  else
    match res.files with
    | none => []
    | some files =>
      let states :=
        files.foldl
          (fun m f =>
            let sid := extractCodexSessionId f.path
            let st :=
              f.lines.foldl
                (fun st line =>
                  match parseCodexTokenSnapshot line with
                  | none => st
                  | some snap => updateSessionState start endTime st snap)
                (sessionGet m sid)
            sessionSet m sid st)
          []
      states.filterMap (fun p => codexSessionRecord p.2)

/-! ## Model aggregation and view generation -/

/-- Accumulator for one model series (`aggregateByModel` entry). -/
structure ModelAgg where
  name : String
  input : ℚ
  output : ℚ
  cacheRead : ℚ
  cacheCreate : ℚ
  total : ℚ
  count : ℕ
deriving DecidableEq

/-- Fold one record into the insertion-ordered per-model map. -/
def aggStep (m : List ModelAgg) (r : UsageRecord) : List ModelAgg :=
  let model := if r.model = "" then "unknown" else r.model
  let bump := fun (a : ModelAgg) =>
    { a with
        input := a.input + r.input
      , output := a.output + r.output
      , cacheRead := a.cacheRead + r.cacheRead
      , cacheCreate := a.cacheCreate + r.cacheCreate
      , total := a.total + calculateTotalTokens r
      , count := a.count + 1 }
  if m.any (fun a => a.name = model) then
    m.map (fun a => if a.name = model then bump a else a)
  else
    m ++ [bump { name := model, input := 0, output := 0, cacheRead := 0, cacheCreate := 0, total := 0, count := 0 }]

/-- `aggregateByModel` from `store/usageAggregator.js` (the Map in
insertion order). -/
def aggregateByModel (records : List UsageRecord) : List ModelAgg :=
  records.foldl aggStep []

/-- The `MODEL_COLORS` table, in literal (= JS property) order. -/
def MODEL_COLORS : List (String × String) :=
  [ ("opus", "#2563eb"), ("claude-opus", "#2563eb")
  , ("sonnet", "#6366f1"), ("claude-sonnet", "#6366f1")
  , ("haiku", "#8b5cf6"), ("claude-haiku", "#8b5cf6")
  , ("claude", "#ec4899")
  , ("gpt-5", "#e67e22"), ("gpt-4o", "#f97316"), ("gpt-4", "#f59e0b"), ("gpt-3.5", "#fbbf24")
  , ("kimi", "#16a34a"), ("kimi-pro", "#22c55e")
  , ("deepseek", "#a855f7"), ("gemini", "#dc2626"), ("qwen", "#10b981"), ("yi", "#ec4899")
  , ("llama", "#06b6d4"), ("mistral", "#f59e0b"), ("codex", "#3b82f6")
  , ("default", "#8b919a") ]

/-- `getModelColor`: exact key hit first, then the first table entry
whose key occurs in the lower-cased name, then the default gray. -/
def getModelColor (model : String) : String :=
  let normalized := strToLower model
  match MODEL_COLORS.find? (fun kv => kv.1 = normalized) with
  | some kv => kv.2
  | none =>
    match MODEL_COLORS.find? (fun kv => strIncludes normalized kv.1) with
    | some kv => kv.2
    | none => "#8b919a"

/-- A ranked model entry of the final report (`ModelAgg` plus its
display color). -/
structure ModelView where
  name : String
  input : ℚ
  output : ℚ
  cacheRead : ℚ
  cacheCreate : ℚ
  total : ℚ
  count : ℕ
  color : String
deriving DecidableEq

/-- Decorate one aggregate with its color. -/
def toModelView (m : ModelAgg) : ModelView :=
  { name := m.name, input := m.input, output := m.output, cacheRead := m.cacheRead
  , cacheCreate := m.cacheCreate, total := m.total, count := m.count
  , color := getModelColor m.name }

/-- The sort comparator `(b.total - a.total) || a.name.localeCompare(b.name)`
as a boolean order: total descending, name ascending on ties
(locale comparison modelled as code-point order). -/
def modelLe (a b : ModelAgg) : Bool :=
  decide (b.total < a.total) || (decide (a.total = b.total) && decide (a.name ≤ b.name))

/-- Stable insertion into a list sorted by `modelLe`. -/
def insertRanked (x : ModelAgg) : List ModelAgg → List ModelAgg
  | [] => [x]
  | y :: ys => if modelLe x y then x :: y :: ys else y :: insertRanked x ys

/-- The JS stable sort under the total comparator above (any stable
sort produces the same list; insertion sort is the model). -/
def sortModels (l : List ModelAgg) : List ModelAgg :=
  l.foldr insertRanked []

/-- One display bucket of the distribution list. -/
structure DistributionItem where
  name : String
  percent : ℤ
  color : String
  key : String
deriving DecidableEq

/-- `Math.round`: round half toward positive infinity. -/
def jsRound (q : ℚ) : ℤ :=
  ⌊q + 1 / 2⌋

/-- `percent = total > 0 ? Math.round((model.total / total) * 100) : 0`. -/
def percentOf (grand : ℚ) (t : ℚ) : ℤ :=
  if 0 < grand then jsRound (t / grand * 100) else 0

/-- A distribution bucket for one ranked model. -/
def distItemOf (grand : ℚ) (m : ModelView) : DistributionItem :=
  { name := m.name, percent := percentOf grand m.total, color := m.color, key := m.name }

/-- The synthetic bucket summarizing the models ranked sixth onward. -/
def othersItem (grand : ℚ) (otherModels : List ModelView) : DistributionItem :=
  { name := "其他 (" ++ toString otherModels.length ++ "个模型)"
  , percent := percentOf grand (otherModels.foldl (fun s m => s + m.total) 0)
  , color := "#8b919a"
  , key := "others" }

/-- The final report (`ViewData`). -/
structure ViewData where
  total : ℚ
  input : ℚ
  output : ℚ
  cache : ℚ
  models : List ModelView
  distribution : List DistributionItem
  isExtremeScenario : Bool
  modelCount : ℕ
deriving DecidableEq

/-- `generateViewData` from `store/usageAggregator.js`: drop zero-total
models, rank by the total comparator, decorate with colors and
percentages, and bucket the distribution (all models when at most five,
top five plus a positive-total "Others" bucket otherwise). -/
def generateViewData (aggregated : List ModelAgg) : ViewData :=
  let nonZeroModels := aggregated.filter (fun m => decide (0 < m.total))
  let models := (sortModels nonZeroModels).map toModelView
  let total := models.foldl (fun s m => s + m.total) 0
  let totalInput := models.foldl (fun s m => s + m.input) 0
  let totalOutput := models.foldl (fun s m => s + m.output) 0
  let totalCache := models.foldl (fun s m => s + m.cacheRead + m.cacheCreate) 0
  let isExtremeScenario := decide (5 < models.length)
  let distribution :=
    if isExtremeScenario = false then models.map (distItemOf total)
    else
      let topModels := models.take 5
      let otherModels := models.drop 5
      let othersTotal : ℚ := otherModels.foldl (fun s m => s + m.total) 0
      if 0 < othersTotal then topModels.map (distItemOf total) ++ [othersItem total otherModels]
      else topModels.map (distItemOf total)
  { total := total
  , input := totalInput
  , output := totalOutput
  , cache := totalCache
  , models := models
  , distribution := distribution
  , isExtremeScenario := isExtremeScenario
  , modelCount := models.length }

/-! ## The aggregation entry point (`aggregateUsage`) -/

/-- The data payload of a successful aggregation. -/
structure AggData where
  view : ViewData
  period : String
  startTime : ℤ
  endTime : ℤ
  recordCount : ℕ
deriving DecidableEq

/-- `aggregate(period)` outcome: a success payload or a typed error. -/
inductive AggResult where
  | ok (d : AggData)
  | err (e : String)
deriving DecidableEq

/-- `aggregateUsage` from `store/usageAggregator.js`, with the current
instant and the two scanner responses (Claude first, Codex second) as
explicit inputs.  An unsupported period fails with INVALID_PERIOD before
any computation. -/
def aggregateUsage (period : String) (now : ℤ) (claudeRes codexRes : ScanResult) :
    AggResult :=
  if (["today", "week", "month"].contains period) = false then .err "INVALID_PERIOD"
  else
    let w := getBeijingTimeWindow period now
    let claudeRecords := scanClaudeRecords claudeRes w.start w.endTime
    let codexRecords := scanCodexRecords codexRes w.start w.endTime
    let allRecords := claudeRecords ++ codexRecords
    let viewData := generateViewData (aggregateByModel allRecords)
    .ok
      { view := viewData
      , period := period
      , startTime := w.start
      , endTime := w.endTime
      , recordCount := allRecords.length }

/-! ## Refresh policy (`pages/UsageMonitorPage.jsx`) -/

/-- `TODAY_REFRESH_INTERVAL_MS = 5 * 60 * 1000`. -/
def TODAY_REFRESH_INTERVAL_MS : ℤ := 5 * 60 * 1000

/-- `DAILY_REFRESH_MINUTE = 5`. -/
def DAILY_REFRESH_MINUTE : ℤ := 5

/-- Beijing civil year, month, day, hour and minute of an instant. -/
structure BeijingParts where
  year : ℤ
  month : ℤ
  day : ℤ
  hour : ℤ
  minute : ℤ
deriving DecidableEq

/-- `getBeijingDateTimeParts`: the Asia/Shanghai civil reading of an
instant, via the constant UTC+8 offset. -/
def getBeijingDateTimeParts (t : ℤ) : BeijingParts :=
  let civil := civilFromDays (beijingDayIndex t)
  let ofDay := (t + beijingOffsetMs).fmod msPerDay
  { year := civil.1, month := civil.2.1, day := civil.2.2
  , hour := ofDay.fdiv 3600000
  , minute := (ofDay.fmod 3600000).fdiv 60000 }

/-- Zero-pad a two-digit civil field. -/
def pad2 (n : ℤ) : String :=
  if n < 10 then "0" ++ toString n else toString n

/-- `getBeijingDayKey`: the `YYYY-MM-DD` Beijing day key of an
instant. -/
def getBeijingDayKey (t : ℤ) : String :=
  let p := getBeijingDateTimeParts t
  toString p.year ++ "-" ++ pad2 p.month ++ "-" ++ pad2 p.day

/-- `getDailyRefreshKey`: before 00:05 Beijing time the previous day
still owns the daily batch; from 00:05 on the current day does. -/
def getDailyRefreshKey (t : ℤ) : String :=
  let parts := getBeijingDateTimeParts t
  let dayStart := beijingDayStartMs t
  let adjusted :=
    if parts.hour = 0 ∧ parts.minute < DAILY_REFRESH_MINUTE then dayStart - msPerDay
    else dayStart
  getBeijingDayKey adjusted

/-- One cached period entry plus its staleness metadata.  Fields the
source leaves undefined for the other period kind are `none`. -/
structure PeriodCacheEntry where
  data : Option ViewData
  computedAt : Option String
  dayKey : Option String
  dailyRefreshKey : Option String
deriving DecidableEq

/-- `isTodayCacheFresh`: requires truthy `computedAt` and `dayKey`, the
entry's civil day to match the current one, a parseable `computedAt`
instant, and strictly less than the five-minute interval elapsed. -/
def isTodayCacheFresh (entry : Option PeriodCacheEntry) (now : ℤ) : Bool :=
  match entry with
  | none => false
  | some e =>
    match e.computedAt, e.dayKey with
    | some caStr, some dk =>
      if caStr = "" ∨ dk = "" then false
      else if dk ≠ getBeijingDayKey now then false
      else
        match parseISODate caStr with
        | .invalid => false
        | .valid t => decide (now - t < TODAY_REFRESH_INTERVAL_MS)
    | _, _ => false

/-- `isRangeCacheFresh`: requires a truthy `dailyRefreshKey` equal to
the current daily batch key. -/
def isRangeCacheFresh (entry : Option PeriodCacheEntry) (now : ℤ) : Bool :=
  match entry with
  | none => false
  | some e =>
    match e.dailyRefreshKey with
    | none => false
    | some rk => decide (rk ≠ "") && decide (rk = getDailyRefreshKey now)

/-- `shouldRefreshPeriod`: an entry without data always recomputes;
today follows the five-minute rule, week and month the daily batch
key. -/
def shouldRefreshPeriod (period : String) (entry : Option PeriodCacheEntry) (now : ℤ) :
    Bool :=
  match entry with
  | none => true
  | some e =>
    if e.data.isNone then true
    else if period = "today" then !(isTodayCacheFresh entry now)
    else !(isRangeCacheFresh entry now)

/-! ## Concrete scenarios used by the theorems below -/

/-- The fixed instant 2026-02-15T03:00:00Z (Beijing 11:00). -/
def nowFeb15 : ℤ := daysFromCivil 2026 2 15 * msPerDay + 3 * 3600000

/-- Beijing civil midnight of 2026-02-15. -/
def beijingMidnightFeb15 : ℤ := daysFromCivil 2026 2 15 * msPerDay - beijingOffsetMs

/-- A successful scan that matched no files. -/
def scanOkEmpty : ScanResult := { success := true, files := some [] }

/-- A failed scan (e.g. permission denied), reported `success:false`. -/
def scanFailed : ScanResult := { success := false, files := none }

/-- A Codex token-count line with the given cumulative totals. -/
def codexLine (ts inp cache out tot : ℚ) : Option Json :=
  some (Json.obj
    [ ("timestamp", Json.num ts)
    , ("type", Json.str "event_msg")
    , ("payload", Json.obj
        [ ("type", Json.str "token_count")
        , ("info", Json.obj
            [ ("total_token_usage", Json.obj
                [ ("input_tokens", Json.num inp)
                , ("cached_input_tokens", Json.num cache)
                , ("output_tokens", Json.num out)
                , ("total_tokens", Json.num tot) ]) ]) ]) ])

/-- The dedup scenario: one session whose pre-window snapshot is
(60, 10, 30), with the larger in-window snapshot (95, 15, 60) repeated
verbatim and one smaller in-window snapshot, against the window
[1000000, 2000000). -/
def codexScanDedup : ScanResult :=
  { success := true
  , files := some
      [ { path := "rollout-1a2b3c4d-1111-2222-3333-444455556666.jsonl"
        , lines :=
            [ codexLine 500000 60 30 10 100
            , codexLine 1500000 95 60 15 170
            , codexLine 1400000 70 40 12 122
            , codexLine 1500000 95 60 15 170 ] } ] }

/-- A Claude log line with the given timestamp value and usage. -/
def claudeLine (ts : Json) (model : String) (inp out cr cc : ℚ) : Option Json :=
  some (Json.obj
    [ ("timestamp", ts)
    , ("message", Json.obj
        [ ("model", Json.str model)
        , ("usage", Json.obj
            [ ("input_tokens", Json.num inp)
            , ("output_tokens", Json.num out)
            , ("cache_read_input_tokens", Json.num cr)
            , ("cache_creation_input_tokens", Json.num cc) ]) ]) ])

/-- A one-file Claude scan with two models inside the today window of
`nowFeb15`. -/
def scanClaudeTwoModels : ScanResult :=
  { success := true
  , files := some
      [ { path := "p.jsonl"
        , lines :=
            [ claudeLine (Json.num ((beijingMidnightFeb15 : ℚ) + 3600000)) "claude-sonnet-4" 10 20 30 40
            , claudeLine (Json.num ((beijingMidnightFeb15 : ℚ) + 7200000)) "claude-opus-4" 5 5 0 0 ] } ] }

/-- An empty report, as produced for an empty record list. -/
def emptyViewData : ViewData :=
  { total := 0, input := 0, output := 0, cache := 0, models := [], distribution := []
  , isExtremeScenario := false, modelCount := 0 }

/-- A today cache entry computed at `nowFeb15`
(toISOString renders it as 2026-02-15T03:00:00.000Z). -/
def todayEntryFeb15 : PeriodCacheEntry :=
  { data := some emptyViewData
  , computedAt := some "2026-02-15T03:00:00.000Z"
  , dayKey := some "2026-02-15"
  , dailyRefreshKey := none }

/-- The single record the dedup session must reduce to. -/
def dedupRecord : UsageRecord :=
  { timestamp := some (DateV.valid 1500000), model := "codex"
  , input := 5, output := 5, cacheRead := 30, cacheCreate := 0 }

/-! ## Day arithmetic lemmas -/

theorem fdiv_day_eq_ediv (a : ℤ) : a.fdiv 86400000 = a / 86400000 :=
  Int.fdiv_eq_ediv a (by norm_num)

theorem beijingDayStartMs_le (t : ℤ) : beijingDayStartMs t ≤ t := by
  simp only [beijingDayStartMs, beijingDayIndex, msPerDay, beijingOffsetMs, fdiv_day_eq_ediv]
  omega

theorem lt_beijingDayStartMs_add (t : ℤ) : t < beijingDayStartMs t + msPerDay := by
  simp only [beijingDayStartMs, beijingDayIndex, msPerDay, beijingOffsetMs, fdiv_day_eq_ediv]
  omega

theorem beijingDayIndex_dayStart (t : ℤ) :
    beijingDayIndex (beijingDayStartMs t) = beijingDayIndex t := by
  simp only [beijingDayStartMs, beijingDayIndex, msPerDay, beijingOffsetMs, fdiv_day_eq_ediv]
  omega

theorem beijingDayIndex_sub_day (t : ℤ) :
    beijingDayIndex (t - msPerDay) = beijingDayIndex t - 1 := by
  simp only [beijingDayIndex, msPerDay, beijingOffsetMs, fdiv_day_eq_ediv]
  omega

theorem getBeijingDayKey_congr {a b : ℤ} (h : beijingDayIndex a = beijingDayIndex b) :
    getBeijingDayKey a = getBeijingDayKey b := by
  simp only [getBeijingDayKey, getBeijingDateTimeParts, h]

theorem windowStart_pos (now : ℤ) (h : 31 * msPerDay ≤ now) (period : String) :
    0 < (getBeijingTimeWindow period now).start := by
  have h2 := lt_beijingDayStartMs_add now
  unfold getBeijingTimeWindow
  split_ifs <;> simp only [msPerDay] at * <;> omega

/-! ## Claim theorems (first group) -/

/-- C1, counterexample: with the scanner reporting `success:false` for
both log sources at the fixed instant of the test clock, `aggregate`
does NOT return a failure result — it succeeds with an empty report, so
the collaborator error is masked rather than propagated. -/
theorem c1_scan_failure_not_propagated :
    scanFailed.success = false ∧
      aggregateUsage "today" nowFeb15 scanFailed scanFailed =
        AggResult.ok
          { view := emptyViewData, period := "today"
          , startTime := 1771084800000, endTime := 1771124400000, recordCount := 0 } :=
  ⟨rfl, by decide⟩

/-- C1, amended: a `success:false` scanner response for either source is
absorbed as an empty scan — for every valid period the aggregation both
succeeds and coincides with the aggregation in which the failed source
returned no files. -/
theorem c1_scan_failure_masked (period : String) (now : ℤ) (res other : ScanResult)
    (hp : period ∈ ["today", "week", "month"]) (hf : res.success = false) :
    aggregateUsage period now res other = aggregateUsage period now scanOkEmpty other ∧
    aggregateUsage period now other res = aggregateUsage period now other scanOkEmpty ∧
    ∃ d, aggregateUsage period now res other = AggResult.ok d := by
  have hc : (["today", "week", "month"].contains period) = true := List.elem_eq_true_of_mem hp
  have hclaude : ∀ s e, scanClaudeRecords res s e = [] := by
    intro s e; simp [scanClaudeRecords, hf]
  have hcodex : ∀ s e, scanCodexRecords res s e = [] := by
    intro s e; simp [scanCodexRecords, hf]
  have hclaude0 : ∀ s e, scanClaudeRecords scanOkEmpty s e = [] := by intro s e; rfl
  have hcodex0 : ∀ s e, scanCodexRecords scanOkEmpty s e = [] := by intro s e; rfl
  refine ⟨?_, ?_, ?_⟩
  · simp [aggregateUsage, hc, hclaude, hcodex, hclaude0, hcodex0]
  · simp [aggregateUsage, hc, hclaude, hcodex, hclaude0, hcodex0]
  · simp only [aggregateUsage, hc, Bool.true_eq_false, if_false]
    exact ⟨_, rfl⟩

/-- C1, witness for the amended theorem at a concrete failing scan. -/
theorem c1_scan_failure_masked_witness :
    aggregateUsage "today" 0 scanFailed scanOkEmpty =
      aggregateUsage "today" 0 scanOkEmpty scanOkEmpty ∧
    aggregateUsage "today" 0 scanOkEmpty scanFailed =
      aggregateUsage "today" 0 scanOkEmpty scanOkEmpty ∧
    ∃ d, aggregateUsage "today" 0 scanFailed scanOkEmpty = AggResult.ok d :=
  c1_scan_failure_masked "today" 0 scanFailed scanOkEmpty (by decide) rfl

/-- C2: the dedup session — pre-window totals (60, 10, 30), in-window
maximum (95, 15, 60) repeated verbatim plus a smaller in-window
snapshot — reduces to exactly one record with input 5, output 5,
cacheRead 30, cacheCreate 0 and total 40; the repeated snapshot doubles
nothing. -/
theorem c2_codex_dedup :
    scanCodexRecords codexScanDedup 1000000 2000000 = [dedupRecord] ∧
      calculateTotalTokens dedupRecord = 40 := by
  refine ⟨by decide, ?_⟩
  norm_num [calculateTotalTokens, dedupRecord]

/-- C3: at the fixed instant 2026-02-15T03:00:00Z all three windows are
half-open in Beijing civil time — the record at Beijing midnight is in
today only, the record one second earlier is in week and month only,
and the records exactly 7 and 30 days before midnight are in week
resp. month. -/
theorem c3_window_boundaries :
    (inWindowJS (some (DateV.valid beijingMidnightFeb15))
        (getBeijingTimeWindow "today" nowFeb15).start
        (getBeijingTimeWindow "today" nowFeb15).endTime = true) ∧
    (inWindowJS (some (DateV.valid beijingMidnightFeb15))
        (getBeijingTimeWindow "week" nowFeb15).start
        (getBeijingTimeWindow "week" nowFeb15).endTime = false) ∧
    (inWindowJS (some (DateV.valid beijingMidnightFeb15))
        (getBeijingTimeWindow "month" nowFeb15).start
        (getBeijingTimeWindow "month" nowFeb15).endTime = false) ∧
    (inWindowJS (some (DateV.valid (beijingMidnightFeb15 - 1000)))
        (getBeijingTimeWindow "today" nowFeb15).start
        (getBeijingTimeWindow "today" nowFeb15).endTime = false) ∧
    (inWindowJS (some (DateV.valid (beijingMidnightFeb15 - 1000)))
        (getBeijingTimeWindow "week" nowFeb15).start
        (getBeijingTimeWindow "week" nowFeb15).endTime = true) ∧
    (inWindowJS (some (DateV.valid (beijingMidnightFeb15 - 1000)))
        (getBeijingTimeWindow "month" nowFeb15).start
        (getBeijingTimeWindow "month" nowFeb15).endTime = true) ∧
    (inWindowJS (some (DateV.valid (beijingMidnightFeb15 - 7 * msPerDay)))
        (getBeijingTimeWindow "week" nowFeb15).start
        (getBeijingTimeWindow "week" nowFeb15).endTime = true) ∧
    (inWindowJS (some (DateV.valid (beijingMidnightFeb15 - 30 * msPerDay)))
        (getBeijingTimeWindow "month" nowFeb15).start
        (getBeijingTimeWindow "month" nowFeb15).endTime = true) := by
  refine ⟨?_, ?_, ?_, ?_, ?_, ?_, ?_, ?_⟩ <;> decide

/-- C9: records and snapshots without a timestamp never count.  For any
present-day clock (at least 31 days past the epoch) and any valid
period, a Claude record whose parser timestamp is `null` fails the
in-window check, and a Codex snapshot without a timestamp leaves the
session state untouched. -/
theorem c9_null_timestamp_discarded (now : ℤ) (hnow : 31 * msPerDay ≤ now)
    (period : String) (_hp : period ∈ ["today", "week", "month"]) :
    (∀ r : UsageRecord, r.timestamp = none →
      inWindowJS r.timestamp (getBeijingTimeWindow period now).start
        (getBeijingTimeWindow period now).endTime = false) ∧
    (∀ (st : SessionState) (snap : CodexSnapshot), snap.timestamp = none →
      updateSessionState (getBeijingTimeWindow period now).start
        (getBeijingTimeWindow period now).endTime st snap = st) := by
  constructor
  · intro r hr
    have hs := windowStart_pos now hnow period
    have : ¬ ((0 : ℤ) ≥ (getBeijingTimeWindow period now).start) := by omega
    simp [hr, inWindowJS, this]
  · intro st snap hsnap
    simp [updateSessionState, hsnap]

/-- C9, witness at the smallest admitted clock and a concrete record
and snapshot. -/
theorem c9_null_timestamp_discarded_witness :
    inWindowJS (none : Option DateV)
      (getBeijingTimeWindow "today" (31 * msPerDay)).start
      (getBeijingTimeWindow "today" (31 * msPerDay)).endTime = false ∧
    updateSessionState (getBeijingTimeWindow "today" (31 * msPerDay)).start
      (getBeijingTimeWindow "today" (31 * msPerDay)).endTime
      { beforeWindow := none, inWindow := none }
      { timestamp := none, model := "codex", inputTotal := 1, outputTotal := 1
      , cacheReadTotal := 1, totalTokens := 3 } =
      { beforeWindow := none, inWindow := none } :=
  ⟨(c9_null_timestamp_discarded (31 * msPerDay) (by norm_num) "today" (by decide)).1
      { timestamp := none, model := "m", input := 0, output := 0, cacheRead := 0, cacheCreate := 0 }
      rfl
  , (c9_null_timestamp_discarded (31 * msPerDay) (by norm_num) "today" (by decide)).2
      { beforeWindow := none, inWindow := none }
      { timestamp := none, model := "codex", inputTotal := 1, outputTotal := 1
      , cacheReadTotal := 1, totalTokens := 3 }
      rfl⟩

/-- C7, counterexample: normalization is not idempotent on ":" — the
fallback maps it to the empty string, and normalizing the empty string
yields "unknown". -/
theorem c7_not_idempotent_on_colon :
    normalizeModelName (normalizeModelName ":") ≠ normalizeModelName ":" := by decide

/-- C6, counterexample: with a today entry computed at 2026-02-15T03:00:00Z
and the current instant exactly five minutes later (same Beijing day),
the code recomputes, but the claim (stale only when MORE than five
minutes elapsed) says the entry is still fresh — the claimed
characterization fails at this instant. -/
theorem c6_exact_five_minutes_boundary :
    ¬ (shouldRefreshPeriod "today" (some todayEntryFeb15) (nowFeb15 + 300000) = true ↔
        ("2026-02-15" ≠ getBeijingDayKey (nowFeb15 + 300000) ∨
          TODAY_REFRESH_INTERVAL_MS < (nowFeb15 + 300000) - nowFeb15)) := by decide

theorem toSafeInt_nonneg (v : Option Json) : 0 ≤ toSafeInt v := by
  unfold toSafeInt
  cases jsNumber v with
  | none => exact le_refl 0
  | some q => exact le_max_left 0 _

/-- C8: each parse function is a total map from one line to either a
record/snapshot or the skip sentinel; malformed JSON (a throwing
JSON.parse, modelled `none`), non-object lines, and lines missing the
required usage or event sub-objects all yield the sentinel, and the
functions are pure, so no exception escapes. -/
theorem c8_parsers_never_throw :
    (∀ line : Option Json, parseClaudeLog line = none ∨ ∃ r, parseClaudeLog line = some r) ∧
    (∀ line : Option Json, parseCodexLog line = none ∨ ∃ r, parseCodexLog line = some r) ∧
    (∀ line : Option Json,
      parseCodexTokenSnapshot line = none ∨ ∃ s, parseCodexTokenSnapshot line = some s) ∧
    parseClaudeLog none = none ∧
    parseCodexLog none = none ∧
    parseCodexTokenSnapshot none = none ∧
    parseClaudeLog (some (Json.str "plain text")) = none ∧
    parseClaudeLog (some (Json.obj [("note", Json.str "no message.usage")])) = none ∧
    parseCodexLog (some (Json.obj [("type", Json.str "event_msg")])) = none ∧
    parseCodexTokenSnapshot
      (some (Json.obj
        [ ("type", Json.str "event_msg")
        , ("payload", Json.obj [("type", Json.str "token_count")]) ])) = none := by
  refine ⟨?_, ?_, ?_, rfl, rfl, rfl, rfl, rfl, rfl, rfl⟩
  · intro line
    rcases h : parseClaudeLog line with _ | r
    · exact Or.inl rfl
    · exact Or.inr ⟨r, rfl⟩
  · intro line
    rcases h : parseCodexLog line with _ | r
    · exact Or.inl rfl
    · exact Or.inr ⟨r, rfl⟩
  · intro line
    rcases h : parseCodexTokenSnapshot line with _ | s
    · exact Or.inl rfl
    · exact Or.inr ⟨s, rfl⟩

/-- C10: every snapshot the cumulative parser emits carries non-negative
integer totals, and the clamp behind it sends negative numbers to 0,
floors non-negative fractional numbers, and sends undefined and
non-numeric values to 0. -/
theorem c10_snapshot_fields_nonneg :
    (∀ (line : Option Json) (snap : CodexSnapshot),
        parseCodexTokenSnapshot line = some snap →
          0 ≤ snap.inputTotal ∧ 0 ≤ snap.outputTotal ∧ 0 ≤ snap.cacheReadTotal ∧
            0 ≤ snap.totalTokens) ∧
    (∀ q : ℚ, q < 0 → toSafeInt (some (Json.num q)) = 0) ∧
    (∀ q : ℚ, 0 ≤ q → toSafeInt (some (Json.num q)) = ⌊q⌋) ∧
    toSafeInt none = 0 ∧
    (∀ v : Option Json, jsNumber v = none → toSafeInt v = 0) := by
  refine ⟨?_, ?_, ?_, rfl, ?_⟩
  · intro line snap h
    have key : ∀ (a b c d : ℤ), 0 ≤ a → 0 ≤ b → 0 ≤ c → 0 ≤ d →
        0 ≤ if d = 0 then a + b + c else d := by
      intro a b c d ha hb hc hd
      split <;> omega
    rcases line with _ | data
    · exact absurd h (by simp [parseCodexTokenSnapshot])
    · unfold parseCodexTokenSnapshot at h
      split at h
      · exact absurd h (by simp)
      · exact absurd h (by simp)
      · split at h
        · exact absurd h (by simp)
        · simp only [] at h
          split at h
          · exact absurd h (by simp)
          · exact absurd h (by simp)
          · split at h
            · exact absurd h (by simp)
            · rw [Option.some.injEq] at h
              subst h
              exact ⟨toSafeInt_nonneg _, toSafeInt_nonneg _, toSafeInt_nonneg _,
                key _ _ _ _ (toSafeInt_nonneg _) (toSafeInt_nonneg _) (toSafeInt_nonneg _)
                  (toSafeInt_nonneg _)⟩
  · intro q hq
    have hfloor : ⌊q⌋ < 0 := by
      have := Int.floor_le q
      have h0 : (⌊q⌋ : ℚ) < 0 := lt_of_le_of_lt this hq
      exact_mod_cast h0
    simp only [toSafeInt, jsNumber]
    omega
  · intro q hq
    have hfloor : 0 ≤ ⌊q⌋ := Int.floor_nonneg.mpr hq
    simp only [toSafeInt, jsNumber]
    omega
  · intro v hv
    simp [toSafeInt, hv]

/-- C10, witness: the large dedup snapshot parses with the expected
non-negative totals, a negative fraction clamps to 0, a non-negative
fraction floors, and NaN clamps to 0. -/
theorem c10_snapshot_fields_nonneg_witness :
    (0 ≤ (95 : ℤ) ∧ 0 ≤ (15 : ℤ) ∧ 0 ≤ (60 : ℤ) ∧ 0 ≤ (170 : ℤ)) ∧
    toSafeInt (some (Json.num (-1 / 2))) = 0 ∧
    toSafeInt (some (Json.num (15 / 2))) = ⌊(15 / 2 : ℚ)⌋ ∧
    toSafeInt (some (Json.str "abc")) = 0 :=
  ⟨c10_snapshot_fields_nonneg.1 (codexLine 1500000 95 60 15 170)
      { timestamp := some (DateV.valid 1500000), model := "codex"
      , inputTotal := 95, outputTotal := 15, cacheReadTotal := 60, totalTokens := 170 }
      (by decide)
  , c10_snapshot_fields_nonneg.2.1 (-1 / 2) (by norm_num)
  , c10_snapshot_fields_nonneg.2.2.1 (15 / 2) (by norm_num)
  , c10_snapshot_fields_nonneg.2.2.2.2 (some (Json.str "abc")) (by decide)⟩

theorem getBeijingDayKey_ne_empty (t : ℤ) : getBeijingDayKey t ≠ "" := by
  unfold getBeijingDayKey
  intro h
  have hlen := congrArg String.length h
  have h1 : ("-" : String).length = 1 := rfl
  have h0 : ("" : String).length = 0 := rfl
  simp only [String.length_append, h1, h0] at hlen
  omega

theorem getDailyRefreshKey_ne_empty (t : ℤ) : getDailyRefreshKey t ≠ "" :=
  getBeijingDayKey_ne_empty _

/-- C6, amended: the staleness decision, for well-formed cache entries.
A today entry is stale iff no entry exists, its Beijing day key differs
from the current one, or AT LEAST five minutes (`>= 300000` ms, not
strictly more) have elapsed since it was computed; a week or month entry
is stale iff no entry exists or its daily batch key differs from the
current one, where an instant before 00:05 Beijing time still belongs to
the previous day's batch. -/
theorem c6_staleness_rules (now : ℤ) (vd : ViewData) (caStr k rk : String) (t : ℤ)
    (hca : parseISODate caStr = DateV.valid t) (hcaNe : caStr ≠ "") (hk : k ≠ "")
    (hrk : rk ≠ "") :
    shouldRefreshPeriod "today" none now = true ∧
    (shouldRefreshPeriod "today"
        (some { data := some vd, computedAt := some caStr, dayKey := some k
              , dailyRefreshKey := none }) now = true ↔
      (k ≠ getBeijingDayKey now ∨ TODAY_REFRESH_INTERVAL_MS ≤ now - t)) ∧
    shouldRefreshPeriod "week" none now = true ∧
    (shouldRefreshPeriod "week"
        (some { data := some vd, computedAt := none, dayKey := none
              , dailyRefreshKey := some rk }) now = true ↔
      rk ≠ getDailyRefreshKey now) ∧
    (shouldRefreshPeriod "month"
        (some { data := some vd, computedAt := none, dayKey := none
              , dailyRefreshKey := some rk }) now = true ↔
      rk ≠ getDailyRefreshKey now) ∧
    ((getBeijingDateTimeParts now).hour = 0 ∧
        (getBeijingDateTimeParts now).minute < DAILY_REFRESH_MINUTE →
      getDailyRefreshKey now = getBeijingDayKey (now - msPerDay)) ∧
    (¬ ((getBeijingDateTimeParts now).hour = 0 ∧
        (getBeijingDateTimeParts now).minute < DAILY_REFRESH_MINUTE) →
      getDailyRefreshKey now = getBeijingDayKey now) := by
  have hne : getDailyRefreshKey now ≠ "" := getDailyRefreshKey_ne_empty now
  refine ⟨rfl, ?_, rfl, ?_, ?_, ?_, ?_⟩
  · have hstep :
        shouldRefreshPeriod "today"
          (some { data := some vd, computedAt := some caStr, dayKey := some k
                , dailyRefreshKey := none }) now =
        !(isTodayCacheFresh
          (some { data := some vd, computedAt := some caStr, dayKey := some k
                , dailyRefreshKey := none }) now) := rfl
    have hfresh :
        isTodayCacheFresh
          (some { data := some vd, computedAt := some caStr, dayKey := some k
                , dailyRefreshKey := none }) now =
        (if caStr = "" ∨ k = "" then false
         else if k ≠ getBeijingDayKey now then false
         else decide (now - t < TODAY_REFRESH_INTERVAL_MS)) := by
      simp only [isTodayCacheFresh, hca]
    rw [hstep, hfresh, if_neg (by simp [hcaNe, hk])]
    by_cases hday : k = getBeijingDayKey now
    · rw [if_neg (fun hcon => hcon hday)]
      simp only [hday, ne_eq, not_true_eq_false, false_or, Bool.not_eq_true',
        decide_eq_false_iff_not, not_lt, TODAY_REFRESH_INTERVAL_MS]
    · rw [if_pos hday]
      simp [hday]
  · have hstep :
        shouldRefreshPeriod "week"
          (some { data := some vd, computedAt := none, dayKey := none
                , dailyRefreshKey := some rk }) now =
        !(isRangeCacheFresh
          (some { data := some vd, computedAt := none, dayKey := none
                , dailyRefreshKey := some rk }) now) := rfl
    rw [hstep]
    simp only [isRangeCacheFresh, Bool.not_eq_true']
    by_cases heq : rk = getDailyRefreshKey now <;> simp [heq, hrk, hne]
  · have hstep :
        shouldRefreshPeriod "month"
          (some { data := some vd, computedAt := none, dayKey := none
                , dailyRefreshKey := some rk }) now =
        !(isRangeCacheFresh
          (some { data := some vd, computedAt := none, dayKey := none
                , dailyRefreshKey := some rk }) now) := rfl
    rw [hstep]
    simp only [isRangeCacheFresh, Bool.not_eq_true']
    by_cases heq : rk = getDailyRefreshKey now <;> simp [heq, hrk, hne]
  · intro hcond
    have hidx : beijingDayIndex (beijingDayStartMs now - msPerDay) =
        beijingDayIndex (now - msPerDay) := by
      rw [beijingDayIndex_sub_day, beijingDayIndex_sub_day, beijingDayIndex_dayStart]
    simp only [getDailyRefreshKey, if_pos hcond]
    exact getBeijingDayKey_congr hidx
  · intro hcond
    simp only [getDailyRefreshKey, if_neg hcond]
    exact getBeijingDayKey_congr (beijingDayIndex_dayStart now)

/-- C6, witness for the amended staleness rules at the fixed clock. -/
theorem c6_staleness_rules_witness :
    shouldRefreshPeriod "today"
        (some { data := some emptyViewData, computedAt := some "2026-02-15T03:00:00.000Z"
              , dayKey := some "2026-02-15", dailyRefreshKey := none }) nowFeb15 = true ↔
      ("2026-02-15" ≠ getBeijingDayKey nowFeb15 ∨
        TODAY_REFRESH_INTERVAL_MS ≤ nowFeb15 - nowFeb15) :=
  (c6_staleness_rules nowFeb15 emptyViewData "2026-02-15T03:00:00.000Z" "2026-02-15"
      "2026-02-15" nowFeb15 (by decide) (by decide) (by decide) (by decide)).2.1

/-! ## String machinery lemmas for the normalizer -/

theorem startsWithList_nil (hay : List Char) : startsWithList hay [] = true := by
  cases hay <;> rfl

theorem startsWithList_append (p q n : List Char) (h : startsWithList p n = true) :
    startsWithList (p ++ q) n = true := by
  induction n generalizing p with
  | nil => exact startsWithList_nil _
  | cons c ns ih =>
    cases p with
    | nil => simp [startsWithList] at h
    | cons h0 hs =>
      simp only [List.cons_append, startsWithList, Bool.and_eq_true] at h ⊢
      exact ⟨h.1, ih hs h.2⟩

theorem listIncludes_nil_needle (hay : List Char) : listIncludes [] hay = true := by
  cases hay <;> simp [listIncludes, startsWithList]

theorem listIncludes_append_right (n p q : List Char) (h : listIncludes n p = true) :
    listIncludes n (p ++ q) = true := by
  induction p with
  | nil =>
    cases n with
    | nil => exact listIncludes_nil_needle q
    | cons c ns => simp [listIncludes, startsWithList] at h
  | cons h0 t ih =>
    simp only [listIncludes, Bool.or_eq_true] at h
    simp only [List.cons_append, listIncludes, Bool.or_eq_true]
    rcases h with h | h
    · exact Or.inl (startsWithList_append _ _ _ h)
    · exact Or.inr (ih h)

theorem splitOnChar_ne_nil (sep : Char) (cs : List Char) : splitOnChar sep cs ≠ [] := by
  cases cs with
  | nil => simp [splitOnChar]
  | cons c rest =>
    by_cases hc : c = sep <;>
      cases hr : splitOnChar sep rest <;>
        simp [splitOnChar, hc, hr]

theorem joinWithChar_splitOnChar (sep : Char) (cs : List Char) :
    joinWithChar sep (splitOnChar sep cs) = cs := by
  induction cs with
  | nil => rfl
  | cons c rest ih =>
    simp only [splitOnChar]
    by_cases hc : c = sep
    · rw [if_pos hc]
      cases hr : splitOnChar sep rest with
      | nil => exact absurd hr (splitOnChar_ne_nil sep rest)
      | cons g gs =>
        rw [hr] at ih
        subst hc
        simp only [joinWithChar]
        rw [ih]
        rfl
    · rw [if_neg hc]
      cases hr : splitOnChar sep rest with
      | nil => exact absurd hr (splitOnChar_ne_nil sep rest)
      | cons g gs =>
        rw [hr] at ih
        cases gs with
        | nil =>
          simp only [joinWithChar] at ih ⊢
          rw [ih]
        | cons g2 gs2 =>
          simp only [joinWithChar, List.cons_append] at ih ⊢
          rw [ih]

theorem splitOnChar_no_sep (sep : Char) (cs : List Char) :
    ∀ g ∈ splitOnChar sep cs, sep ∉ g := by
  induction cs with
  | nil =>
    intro g hg
    simp only [splitOnChar, List.mem_singleton] at hg
    subst hg
    simp
  | cons c rest ih =>
    intro g hg
    simp only [splitOnChar] at hg
    by_cases hc : c = sep
    · rw [if_pos hc] at hg
      rcases List.mem_cons.mp hg with h | h
      · subst h; simp
      · exact ih g h
    · rw [if_neg hc] at hg
      cases hr : splitOnChar sep rest with
      | nil => exact absurd hr (splitOnChar_ne_nil sep rest)
      | cons g0 gs =>
        rw [hr] at hg ih
        rcases List.mem_cons.mp hg with h | h
        · subst h
          intro hmem
          rcases List.mem_cons.mp hmem with h2 | h2
          · exact hc h2.symm
          · exact ih g0 (List.mem_cons_self g0 gs) h2
        · exact ih g (List.mem_cons_of_mem g0 h)

theorem splitOnChar_of_no_sep (sep : Char) (cs : List Char) (h : sep ∉ cs) :
    splitOnChar sep cs = [cs] := by
  induction cs with
  | nil => rfl
  | cons c rest ih =>
    simp only [List.mem_cons, not_or] at h
    have hc : ¬ (c = sep) := fun hcc => h.1 hcc.symm
    simp only [splitOnChar, if_neg hc]
    rw [ih h.2]

theorem splitOnChar_append_sep (sep : Char) (a b : List Char) (ha : sep ∉ a) :
    splitOnChar sep (a ++ sep :: b) = a :: splitOnChar sep b := by
  induction a with
  | nil =>
    simp [splitOnChar]
  | cons c t ih =>
    simp only [List.mem_cons, not_or] at ha
    have hc : ¬ (c = sep) := fun hcc => ha.1 hcc.symm
    simp only [List.cons_append, splitOnChar, if_neg hc, List.append_eq]
    rw [ih ha.2]

theorem join_take2_prefix (sep : Char) (cs : List Char) :
    ∃ q, joinWithChar sep ((splitOnChar sep cs).take 2) ++ q = cs := by
  have hj := joinWithChar_splitOnChar sep cs
  cases hsp : splitOnChar sep cs with
  | nil => exact absurd hsp (splitOnChar_ne_nil sep cs)
  | cons g gs =>
    rw [hsp] at hj
    cases gs with
    | nil =>
      refine ⟨[], ?_⟩
      simpa [joinWithChar] using hj
    | cons g2 gs2 =>
      cases gs2 with
      | nil =>
        refine ⟨[], ?_⟩
        simpa [joinWithChar] using hj
      | cons g3 gs3 =>
        refine ⟨sep :: joinWithChar sep (g3 :: gs3), ?_⟩
        simp only [joinWithChar, List.cons_append] at hj
        simp only [List.take, joinWithChar]
        rw [List.append_assoc]
        simpa using hj

theorem takeWhile_eq_self_of (p : Char → Bool) (l : List Char)
    (h : ∀ c ∈ l, p c = true) : l.takeWhile p = l := by
  induction l with
  | nil => rfl
  | cons c t ih =>
    simp only [List.takeWhile_cons, h c (List.mem_cons_self c t), if_true]
    rw [ih (fun d hd => h d (List.mem_cons_of_mem c hd))]

theorem charToLower_idem (c : Char) : charToLower (charToLower c) = charToLower c := by
  unfold charToLower
  by_cases h : 65 ≤ c.toNat ∧ c.toNat ≤ 90
  · rw [if_pos h]
    have h2 : ¬ (65 ≤ (Char.ofNat (c.toNat + 32)).toNat ∧
        (Char.ofNat (c.toNat + 32)).toNat ≤ 90) := by
      obtain ⟨ha, hb⟩ := h
      generalize hn : c.toNat = n at ha hb
      interval_cases n <;> decide
    rw [if_neg h2]
  · rw [if_neg h, if_neg h]

theorem fallbackName_prefix (lower : String) :
    ∃ q, (fallbackName lower).data ++ q = lower.data := by
  obtain ⟨q1, h1⟩ := join_take2_prefix '-' (lower.data.takeWhile (fun c => c ≠ ':'))
  refine ⟨q1 ++ lower.data.dropWhile (fun c => c ≠ ':'), ?_⟩
  have h2 := List.takeWhile_append_dropWhile (p := fun c : Char => decide (c ≠ ':'))
    (l := lower.data)
  show joinWithChar '-' ((splitOnChar '-' (lower.data.takeWhile (fun c => c ≠ ':'))).take 2) ++ _ = _
  rw [← List.append_assoc, h1]
  exact h2

theorem fallbackName_prefix_take (lower : String) :
    ∃ q, (fallbackName lower).data ++ q = lower.data.takeWhile (fun c => c ≠ ':') :=
  join_take2_prefix '-' (lower.data.takeWhile (fun c => c ≠ ':'))

theorem fallbackName_no_colon (lower : String) :
    ∀ c ∈ (fallbackName lower).data, c ≠ ':' := by
  intro c hc
  obtain ⟨q, hq⟩ := fallbackName_prefix_take lower
  have hmem : c ∈ lower.data.takeWhile (fun c => c ≠ ':') := by
    rw [← hq]
    exact List.mem_append_left _ hc
  have := List.mem_takeWhile_imp hmem
  simpa using this

theorem fallbackName_fix (lower : String) :
    fallbackName (fallbackName lower) = fallbackName lower := by
  have ht : (fallbackName lower).data.takeWhile (fun c => c ≠ ':') =
      (fallbackName lower).data := by
    apply takeWhile_eq_self_of
    intro c hc
    simpa using fallbackName_no_colon lower c hc
  have hs0 := splitOnChar_no_sep '-' (lower.data.takeWhile (fun c => c ≠ ':'))
  cases hsp : splitOnChar '-' (lower.data.takeWhile (fun c => c ≠ ':')) with
  | nil => exact absurd hsp (splitOnChar_ne_nil _ _)
  | cons g gs =>
    rw [hsp] at hs0
    have hfdata : (fallbackName lower).data =
        joinWithChar '-' ((g :: gs).take 2) := by
      show joinWithChar '-' ((splitOnChar '-' (lower.data.takeWhile (fun c => c ≠ ':'))).take 2) = _
      rw [hsp]
    cases gs with
    | nil =>
      have hg : (fallbackName lower).data = g := by
        simpa [joinWithChar] using hfdata
      show (⟨joinWithChar '-'
          ((splitOnChar '-' ((fallbackName lower).data.takeWhile (fun c => c ≠ ':'))).take 2)⟩ :
          String) = fallbackName lower
      rw [ht, hg, splitOnChar_of_no_sep '-' g (hs0 g (List.mem_cons_self g []))]
      simp only [List.take, joinWithChar]
      exact congrArg String.mk hg.symm
    | cons g2 gs2 =>
      have hg : (fallbackName lower).data = g ++ '-' :: g2 := by
        simpa [joinWithChar] using hfdata
      show (⟨joinWithChar '-'
          ((splitOnChar '-' ((fallbackName lower).data.takeWhile (fun c => c ≠ ':'))).take 2)⟩ :
          String) = fallbackName lower
      rw [ht, hg, splitOnChar_append_sep '-' g g2 (hs0 g (List.mem_cons_self g _)),
        splitOnChar_of_no_sep '-' g2
          (hs0 g2 (List.mem_cons_of_mem g (List.mem_cons_self g2 gs2)))]
      simp only [List.take, joinWithChar]
      exact congrArg String.mk hg.symm

/-- C7, amended: normalization is idempotent on every input whose
normalized form is non-empty; the sole exceptions are strings that match
no rule and begin with a colon, whose fallback is the empty string (and
a second application then yields "unknown"). -/
theorem c7_idempotent_amended (x : String) (hx : normalizeModelName x ≠ "") :
    normalizeModelName (normalizeModelName x) = normalizeModelName x := by
  by_cases hxe : x = ""
  · subst hxe; decide
  · have hinner : normalizeModelName x = applyRules (strToLower x) := by
      rw [normalizeModelName, if_neg hxe]
    rw [hinner] at hx ⊢
    cases hfind : normalizeRules.find? (fun r => ruleMatches (strToLower x) r) with
    | some r =>
      rw [show applyRules (strToLower x) = r.2 from by simp only [applyRules, hfind]]
      have hr : r ∈ normalizeRules := List.mem_of_find?_eq_some hfind
      fin_cases hr <;> decide
    | none =>
      rw [show applyRules (strToLower x) = fallbackName (strToLower x) from by
        simp only [applyRules, hfind]] at hx ⊢
      obtain ⟨q, hq⟩ := fallbackName_prefix (strToLower x)
      have hmem : ∀ c ∈ (fallbackName (strToLower x)).data, c ∈ (strToLower x).data := by
        intro c hc
        rw [← hq]
        exact List.mem_append_left _ hc
      have hlowfix : strToLower (fallbackName (strToLower x)) = fallbackName (strToLower x) := by
        have h1 : ∀ c ∈ (fallbackName (strToLower x)).data, charToLower c = c := by
          intro c hc
          have hmem2 : c ∈ x.data.map charToLower := hmem c hc
          obtain ⟨c0, _, rfl⟩ := List.mem_map.mp hmem2
          exact charToLower_idem c0
        show (⟨(fallbackName (strToLower x)).data.map charToLower⟩ : String) = _
        rw [(List.map_congr_left h1).trans (List.map_id _)]
      rw [normalizeModelName, if_neg hx, hlowfix]
      have hnomatch :
          normalizeRules.find? (fun r => ruleMatches (fallbackName (strToLower x)) r) = none := by
        rw [List.find?_eq_none]
        intro r hrmem habs
        have horig := List.find?_eq_none.mp hfind r hrmem
        apply horig
        simp only [ruleMatches, List.any_eq_true] at habs ⊢
        obtain ⟨k, hk1, hk2⟩ := habs
        refine ⟨k, hk1, ?_⟩
        simp only [strIncludes] at hk2 ⊢
        rw [← hq]
        exact listIncludes_append_right _ _ _ hk2
      simp only [applyRules, hnomatch]
      exact fallbackName_fix (strToLower x)

/-- C7, witness for the amended idempotence at a fallback-path input. -/
theorem c7_idempotent_amended_witness :
    normalizeModelName (normalizeModelName "zeta-9-main") = normalizeModelName "zeta-9-main" :=
  c7_idempotent_amended "zeta-9-main" (by decide)

/-! ## Ranking lemmas -/

theorem modelLe_total_cases (a b : ModelAgg) : modelLe a b = true ∨ modelLe b a = true := by
  simp only [modelLe, Bool.or_eq_true, Bool.and_eq_true, decide_eq_true_eq]
  rcases lt_trichotomy a.total b.total with h | h | h
  · exact Or.inr (Or.inl h)
  · rcases le_total a.name b.name with hn | hn
    · exact Or.inl (Or.inr ⟨h, hn⟩)
    · exact Or.inr (Or.inr ⟨h.symm, hn⟩)
  · exact Or.inl (Or.inl h)

theorem modelLe_trans (a b c : ModelAgg) (h1 : modelLe a b = true)
    (h2 : modelLe b c = true) : modelLe a c = true := by
  simp only [modelLe, Bool.or_eq_true, Bool.and_eq_true, decide_eq_true_eq] at h1 h2 ⊢
  rcases h1 with h1 | ⟨h1e, h1n⟩ <;> rcases h2 with h2 | ⟨h2e, h2n⟩
  · exact Or.inl (lt_trans h2 h1)
  · exact Or.inl (by rw [← h2e]; exact h1)
  · exact Or.inl (by rw [h1e]; exact h2)
  · exact Or.inr ⟨h1e.trans h2e, le_trans h1n h2n⟩

theorem mem_insertRanked (x a : ModelAgg) (l : List ModelAgg) :
    a ∈ insertRanked x l ↔ a = x ∨ a ∈ l := by
  induction l with
  | nil => simp [insertRanked]
  | cons y ys ih =>
    simp only [insertRanked]
    split
    · simp [List.mem_cons]
    · simp only [List.mem_cons, ih]
      tauto

theorem insertRanked_perm (x : ModelAgg) (l : List ModelAgg) :
    (insertRanked x l).Perm (x :: l) := by
  induction l with
  | nil => exact List.Perm.refl _
  | cons y ys ih =>
    simp only [insertRanked]
    split
    · exact List.Perm.refl _
    · exact (List.Perm.cons y ih).trans (List.Perm.swap x y ys)

theorem sortModels_perm (l : List ModelAgg) : (sortModels l).Perm l := by
  induction l with
  | nil => exact List.Perm.refl _
  | cons x xs ih =>
    simp only [sortModels, List.foldr_cons]
    exact (insertRanked_perm x _).trans (List.Perm.cons x ih)

theorem pairwise_insertRanked (x : ModelAgg) (l : List ModelAgg)
    (hl : l.Pairwise (fun a b => modelLe a b = true)) :
    (insertRanked x l).Pairwise (fun a b => modelLe a b = true) := by
  induction l with
  | nil => simp [insertRanked]
  | cons y ys ih =>
    rcases List.pairwise_cons.mp hl with ⟨hy, hys⟩
    simp only [insertRanked]
    split
    · rename_i hxy
      refine List.pairwise_cons.mpr ⟨?_, hl⟩
      intro b hb
      rcases List.mem_cons.mp hb with rfl | hb
      · exact hxy
      · exact modelLe_trans x y b hxy (hy b hb)
    · rename_i hxy
      have hyx : modelLe y x = true := by
        rcases modelLe_total_cases x y with h | h
        · exact absurd h hxy
        · exact h
      refine List.pairwise_cons.mpr ⟨?_, ih hys⟩
      intro b hb
      rcases (mem_insertRanked x b ys).mp hb with rfl | hb
      · exact hyx
      · exact hy b hb

theorem sortModels_pairwise (l : List ModelAgg) :
    (sortModels l).Pairwise (fun a b => modelLe a b = true) := by
  induction l with
  | nil => simp [sortModels]
  | cons x xs ih => exact pairwise_insertRanked x _ ih

theorem aggStep_names_nodup (m : List ModelAgg) (r : UsageRecord)
    (h : (m.map (fun a => a.name)).Nodup) :
    ((aggStep m r).map (fun a => a.name)).Nodup := by
  simp only [aggStep]
  generalize (if r.model = "" then "unknown" else r.model) = nm
  split
  · rw [List.map_map]
    have heq : ∀ a ∈ m, ((fun a : ModelAgg => a.name) ∘ (fun a : ModelAgg =>
        if a.name = nm then
          { name := a.name, input := a.input + r.input, output := a.output + r.output
          , cacheRead := a.cacheRead + r.cacheRead, cacheCreate := a.cacheCreate + r.cacheCreate
          , total := a.total + calculateTotalTokens r, count := a.count + 1 } else a)) a =
        (fun a : ModelAgg => a.name) a := by
      intro a _
      simp only [Function.comp_apply]
      split <;> rfl
    rw [List.map_congr_left heq]
    exact h
  · rename_i hany
    have hany2 : (m.any fun a => decide (a.name = nm)) = false := by
      rcases hb : m.any fun a => decide (a.name = nm) with _ | _
      · rfl
      · exact absurd hb hany
    have hnotin : nm ∉ m.map (fun a => a.name) := by
      intro hmem
      obtain ⟨a, ha, heq⟩ := List.mem_map.mp hmem
      have := List.any_eq_false.mp hany2 a ha
      simp only [decide_eq_true_eq] at this
      exact this heq
    rw [List.map_append]
    simp only [List.map_cons, List.map_nil]
    rw [List.nodup_append]
    refine ⟨h, List.nodup_singleton _, ?_⟩
    intro a ha hb
    simp only [List.mem_singleton] at hb
    subst hb
    exact hnotin ha

theorem aggregateByModel_names_nodup (records : List UsageRecord) :
    ((aggregateByModel records).map (fun a => a.name)).Nodup := by
  suffices h : ∀ m : List ModelAgg, (m.map (fun a => a.name)).Nodup →
      ((records.foldl aggStep m).map (fun a => a.name)).Nodup by
    exact h [] (by simp)
  induction records with
  | nil => intro m hm; exact hm
  | cons r rs ih =>
    intro m hm
    exact ih _ (aggStep_names_nodup m r hm)

theorem generateViewData_models_eq (aggregated : List ModelAgg) :
    (generateViewData aggregated).models =
      (sortModels (aggregated.filter (fun m => decide (0 < m.total)))).map toModelView := rfl

theorem generateViewData_models_pos (aggregated : List ModelAgg) :
    ∀ m ∈ (generateViewData aggregated).models, 0 < m.total := by
  intro m hm
  rw [generateViewData_models_eq] at hm
  obtain ⟨a, ha, rfl⟩ := List.mem_map.mp hm
  have ha2 : a ∈ aggregated.filter (fun m => decide (0 < m.total)) :=
    (sortModels_perm _).subset ha
  have := List.of_mem_filter ha2
  simpa [toModelView] using this

theorem foldl_add_total (l : List ModelView) (init : ℚ) :
    l.foldl (fun s m => s + m.total) init = init + (l.map (fun m => m.total)).sum := by
  induction l generalizing init with
  | nil => simp
  | cons a t ih =>
    simp only [List.foldl_cons, List.map_cons, List.sum_cons, ih]
    ring

theorem generateViewData_distribution (aggregated : List ModelAgg) :
    ((generateViewData aggregated).models.length ≤ 5 →
      (generateViewData aggregated).distribution =
        (generateViewData aggregated).models.map
          (distItemOf (generateViewData aggregated).total)) ∧
    (5 < (generateViewData aggregated).models.length →
      0 < ((generateViewData aggregated).models.drop 5).foldl (fun s m => s + m.total) 0 ∧
      (generateViewData aggregated).distribution =
        ((generateViewData aggregated).models.take 5).map
          (distItemOf (generateViewData aggregated).total) ++
          [othersItem (generateViewData aggregated).total
            ((generateViewData aggregated).models.drop 5)]) ∧
    ((generateViewData aggregated).isExtremeScenario = true ↔
      5 < (generateViewData aggregated).models.length) ∧
    (generateViewData aggregated).modelCount = (generateViewData aggregated).models.length := by
  have hposall := generateViewData_models_pos aggregated
  simp only [generateViewData] at hposall ⊢
  refine ⟨?_, ?_, by simp, trivial⟩
  · intro hlen
    rw [if_pos (by simpa using Nat.not_lt.mpr hlen)]
  · intro hlen
    have hpos : 0 < (((sortModels (aggregated.filter (fun m => decide (0 < m.total)))).map
        toModelView).drop 5).foldl (fun s m => s + m.total) 0 := by
      rw [foldl_add_total, zero_add]
      apply List.sum_pos
      · intro q hq
        obtain ⟨m, hm, rfl⟩ := List.mem_map.mp hq
        exact hposall m ((List.drop_sublist 5 _).subset hm)
      · have hlpos : 0 < (((sortModels (aggregated.filter (fun m => decide (0 < m.total)))).map
            toModelView).drop 5).length := by
          rw [List.length_drop]
          omega
        intro hnil
        rw [List.map_eq_nil_iff] at hnil
        rw [hnil] at hlpos
        simp at hlpos
    rw [if_neg (by simpa using hlen), if_pos hpos]
    exact ⟨hpos, rfl⟩

theorem viewModels_sorted (records : List UsageRecord) :
    (generateViewData (aggregateByModel records)).models.Pairwise
      (fun a b => b.total < a.total ∨ (a.total = b.total ∧ a.name < b.name)) := by
  rw [generateViewData_models_eq]
  have hpair := sortModels_pairwise ((aggregateByModel records).filter
    (fun m => decide (0 < m.total)))
  have h1 : ((aggregateByModel records).map (fun a => a.name)).Nodup :=
    aggregateByModel_names_nodup records
  have h2 : (((aggregateByModel records).filter (fun m => decide (0 < m.total))).map
      (fun a => a.name)).Nodup :=
    h1.sublist (List.Sublist.map _ (List.filter_sublist _))
  have h3 := (sortModels_perm ((aggregateByModel records).filter
    (fun m => decide (0 < m.total)))).map (fun a => a.name)
  have hnodup : ((sortModels ((aggregateByModel records).filter
      (fun m => decide (0 < m.total)))).map (fun a => a.name)).Nodup :=
    (List.Perm.nodup_iff h3).mpr h2
  have hne : (sortModels ((aggregateByModel records).filter
      (fun m => decide (0 < m.total)))).Pairwise (fun a b => a.name ≠ b.name) :=
    List.pairwise_map.mp hnodup
  have hcomb := hpair.and hne
  have himp : (sortModels ((aggregateByModel records).filter
      (fun m => decide (0 < m.total)))).Pairwise (fun a b =>
      b.total < a.total ∨ (a.total = b.total ∧ a.name < b.name)) := by
    refine hcomb.imp ?_
    rintro a b ⟨hle, hne2⟩
    simp only [modelLe, Bool.or_eq_true, Bool.and_eq_true, decide_eq_true_eq] at hle
    rcases hle with h | ⟨he, hn⟩
    · exact Or.inl h
    · exact Or.inr ⟨he, lt_of_le_of_ne hn hne2⟩
  rw [List.pairwise_map]
  exact himp

/-- C4: in every successful aggregation, every reported model has a
positive total, isExtremeScenario holds exactly when more than five
models remain, at most five models are displayed unbucketed in rank
order, and more than five models yield the top five plus the single
synthetic "Others" bucket, emitted because the remainder total is
strictly positive. -/
theorem c4_distribution_buckets (period : String) (now : ℤ)
    (claudeRes codexRes : ScanResult) (d : AggData)
    (h : aggregateUsage period now claudeRes codexRes = AggResult.ok d) :
    (∀ m ∈ d.view.models, 0 < m.total) ∧
    (d.view.isExtremeScenario = true ↔ 5 < d.view.models.length) ∧
    d.view.modelCount = d.view.models.length ∧
    (d.view.models.length ≤ 5 →
      d.view.distribution = d.view.models.map (distItemOf d.view.total)) ∧
    (5 < d.view.models.length →
      0 < (d.view.models.drop 5).foldl (fun s m => s + m.total) 0 ∧
      d.view.distribution = (d.view.models.take 5).map (distItemOf d.view.total) ++
        [othersItem d.view.total (d.view.models.drop 5)]) := by
  unfold aggregateUsage at h
  split at h
  · exact absurd h (by simp)
  · rw [AggResult.ok.injEq] at h
    subst h
    obtain ⟨hle, hgt, hiff, hcount⟩ := generateViewData_distribution (aggregateByModel _)
    exact ⟨generateViewData_models_pos _, hiff, hcount, hle, hgt⟩

/-- C4, witness at a concrete successful aggregation. -/
theorem c4_distribution_buckets_witness :
    (∀ m ∈ emptyViewData.models, 0 < m.total) ∧
    (emptyViewData.isExtremeScenario = true ↔ 5 < emptyViewData.models.length) ∧
    emptyViewData.modelCount = emptyViewData.models.length ∧
    (emptyViewData.models.length ≤ 5 →
      emptyViewData.distribution = emptyViewData.models.map (distItemOf emptyViewData.total)) ∧
    (5 < emptyViewData.models.length →
      0 < (emptyViewData.models.drop 5).foldl (fun s m => s + m.total) 0 ∧
      emptyViewData.distribution =
        (emptyViewData.models.take 5).map (distItemOf emptyViewData.total) ++
          [othersItem emptyViewData.total (emptyViewData.models.drop 5)]) :=
  c4_distribution_buckets "today" 0 scanOkEmpty scanOkEmpty
    { view := emptyViewData, period := "today", startTime := -28800000, endTime := 0
    , recordCount := 0 } (by decide)

/-- C5: in every successful aggregation the models list is strictly
ranked — total descending, with equal totals ordered by strictly
ascending name — so the ordering is a deterministic function of the
input. -/
theorem c5_models_ranking (period : String) (now : ℤ)
    (claudeRes codexRes : ScanResult) (d : AggData)
    (h : aggregateUsage period now claudeRes codexRes = AggResult.ok d) :
    d.view.models.Pairwise (fun a b =>
      b.total < a.total ∨ (a.total = b.total ∧ a.name < b.name)) := by
  unfold aggregateUsage at h
  split at h
  · exact absurd h (by simp)
  · rw [AggResult.ok.injEq] at h
    subst h
    exact viewModels_sorted _

/-- C5, witness at a concrete successful aggregation. -/
theorem c5_models_ranking_witness :
    emptyViewData.models.Pairwise (fun a b =>
      b.total < a.total ∨ (a.total = b.total ∧ a.name < b.name)) :=
  c5_models_ranking "today" 0 scanOkEmpty scanOkEmpty
    { view := emptyViewData, period := "today", startTime := -28800000, endTime := 0
    , recordCount := 0 } (by decide)

end UsageEngine
